import Mathlib

/-
  Verification development for the tomogram missing-wedge utilities.

  Shallow embedding of the core numerical code:
  - addWedge.py      add_missing_wedge : frequency-domain wedge masking
  - alignWedge.py    rotateTomogram    : half-difference rotation-angle convention
  - rotate.py        rotateTomogram    : complement rotation-angle convention
  - plot.py          mkImageStack, mkPowerSpectrum : plane-token dispatch

  Machine floats are embedded as exact reals (angles, spectra) and exact
  rationals (rotation-angle arithmetic); numpy integer-valued frequency grids
  are embedded as integers.
-/

open scoped BigOperators

namespace TomoUtils

/-- The signed integer frequency grid numpy produces for one axis:
np.fft.fftfreq(n) * n.  numpy fills indices 0 .. (n-1)/2 with 0 .. (n-1)/2 and
the remaining indices with -(n/2) .. -1, so index i holds i for
i at most (n-1)/2 and i - n beyond (addWedge.py lines 71-73). -/
def fftfreqTimesN (n i : ℕ) : ℤ :=
  if i ≤ (n - 1) / 2 then (i : ℤ) else (i : ℤ) - (n : ℤ)

/-- Two-argument arctangent with the semantics of np.arctan2: the principal
argument of the point (x, y), in (-pi, pi], with atan2 0 0 = 0. -/
noncomputable def atan2 (y x : ℝ) : ℝ :=
  Complex.arg ((x : ℂ) + (y : ℂ) * Complex.I)

/-- Degrees to radians, the semantics of np.deg2rad. -/
noncomputable def deg2rad (d : ℝ) : ℝ := d * Real.pi / 180

/-- The per-voxel angle of addWedge.py line 79: theta = np.arctan2(kX, kZ),
whose first argument is the signed frequency along array axis 0 and whose
second argument is the signed frequency along array axis 2 (the meshgrid also
builds the axis-1 grid kY, but theta never uses it). -/
noncomputable def thetaF (f0 f2 : ℤ) : ℝ :=
  atan2 ((f0 : ℝ)) ((f2 : ℝ))

/-- The wedge mask of addWedge.py line 82 at a pair of signed frequencies:
true where theta < angle_neg or theta > angle_pos (angles in degrees,
converted by np.deg2rad at line 65). -/
noncomputable def symWedgeMaskF (negDeg posDeg : ℝ) (f0 f2 : ℤ) : Prop :=
  thetaF f0 f2 < deg2rad negDeg ∨ deg2rad posDeg < thetaF f0 f2

/-- The wedge mask of addWedge.py at a voxel index of an array of shape
(n0, n1, n2): the frequency grids are fftfreq times the axis length
(lines 71-76) and the axis-1 index never enters the mask. -/
noncomputable def missing_wedge_mask (n0 n2 : ℕ) (negDeg posDeg : ℝ)
    (i0 i2 : ℕ) : Prop :=
  symWedgeMaskF negDeg posDeg (fftfreqTimesN n0 i0) (fftfreqTimesN n2 i2)

/-- Modelled from the spec: the half-angle mask variant, which is absent from
the source files (only the symmetric-range masker of addWedge.py is present).
The spec words it as: mask is true where atan2(abs kAxis2, abs kAxis0) is less
than the half-angle in radians. -/
noncomputable def halfWedgeMaskF (angleDeg : ℝ) (f0 f2 : ℤ) : Prop :=
  atan2 (|(f2 : ℝ)|) (|(f0 : ℝ)|) < deg2rad angleDeg

/-- One separable factor of the forward DFT kernel:
exp(-2 pi I k j / n). np.fft.fftn is the composition of 1-D unnormalized
DFTs along each axis, so the 3-D kernel is the product of three such
factors. -/
noncomputable def twiddle (n k j : ℕ) : ℂ :=
  Complex.exp (-(2 * (Real.pi : ℂ) * Complex.I) * ((k * j : ℕ) : ℂ) / (n : ℂ))

/-- One separable factor of the inverse DFT kernel: exp(2 pi I k j / n). -/
noncomputable def itwiddle (n k j : ℕ) : ℂ :=
  Complex.exp ((2 * (Real.pi : ℂ) * Complex.I) * ((k * j : ℕ) : ℂ) / (n : ℂ))

/-- The unnormalized 3-D discrete Fourier transform, the semantics of
np.fft.fftn on an array of shape (n0, n1, n2) (addWedge.py line 60). -/
noncomputable def fftn {n0 n1 n2 : ℕ} (v : Fin n0 → Fin n1 → Fin n2 → ℂ) :
    Fin n0 → Fin n1 → Fin n2 → ℂ :=
  fun k0 k1 k2 =>
    ∑ j0 : Fin n0, ∑ j1 : Fin n1, ∑ j2 : Fin n2,
      v j0 j1 j2 * (twiddle n0 k0 j0 * twiddle n1 k1 j1 * twiddle n2 k2 j2)

/-- The normalized 3-D inverse discrete Fourier transform, the semantics of
np.fft.ifftn (addWedge.py line 88). -/
noncomputable def ifftn {n0 n1 n2 : ℕ} (F : Fin n0 → Fin n1 → Fin n2 → ℂ) :
    Fin n0 → Fin n1 → Fin n2 → ℂ :=
  fun j0 j1 j2 =>
    (1 / ((n0 : ℂ) * (n1 : ℂ) * (n2 : ℂ))) *
      ∑ k0 : Fin n0, ∑ k1 : Fin n1, ∑ k2 : Fin n2,
        F k0 k1 k2 * (itwiddle n0 k0 j0 * itwiddle n1 k1 j1 * itwiddle n2 k2 j2)

section
open Classical

/-- The masked Fourier transform addWedge.py holds after line 85:
tomogram_fft with every coefficient selected by missing_wedge_mask set to 0
and every other coefficient left as np.fft.fftn produced it. -/
noncomputable def wedgeMaskedFFT {n0 n1 n2 : ℕ}
    (v : Fin n0 → Fin n1 → Fin n2 → ℝ) (negDeg posDeg : ℝ) :
    Fin n0 → Fin n1 → Fin n2 → ℂ :=
  fun k0 k1 k2 =>
    if missing_wedge_mask n0 n2 negDeg posDeg (k0 : ℕ) (k2 : ℕ) then 0
    else fftn (fun a b c => ((v a b c : ℝ) : ℂ)) k0 k1 k2

/-- The core transform of add_missing_wedge (addWedge.py lines 59-88): forward
FFT, zero the masked coefficients, inverse FFT, keep the real part.  File
loading and saving are outside the embedded core.  This is the operation the
spec calls applyWedgeBySymmetricRange. -/
noncomputable def add_missing_wedge {n0 n1 n2 : ℕ}
    (v : Fin n0 → Fin n1 → Fin n2 → ℝ) (negDeg posDeg : ℝ) :
    Fin n0 → Fin n1 → Fin n2 → ℝ :=
  fun j0 j1 j2 => (ifftn (wedgeMaskedFFT v negDeg posDeg) j0 j1 j2).re

/-- Modelled from the spec: the masked Fourier transform of the half-angle
masker, which is absent from the source files; same pipeline position as
wedgeMaskedFFT with the half-angle mask in place of the symmetric-range
mask. -/
noncomputable def halfWedgeMaskedFFT {n0 n1 n2 : ℕ}
    (v : Fin n0 → Fin n1 → Fin n2 → ℝ) (angleDeg : ℝ) :
    Fin n0 → Fin n1 → Fin n2 → ℂ :=
  fun k0 k1 k2 =>
    if halfWedgeMaskF angleDeg (fftfreqTimesN n0 (k0 : ℕ)) (fftfreqTimesN n2 (k2 : ℕ)) then 0
    else fftn (fun a b c => ((v a b c : ℝ) : ℂ)) k0 k1 k2

/-- Modelled from the spec: applyWedgeByHalfAngle, the half-angle sibling of
add_missing_wedge, absent from the source files; forward FFT, zero the
coefficients selected by the half-angle mask, inverse FFT, keep the real
part. -/
noncomputable def applyWedgeByHalfAngle {n0 n1 n2 : ℕ}
    (v : Fin n0 → Fin n1 → Fin n2 → ℝ) (angleDeg : ℝ) :
    Fin n0 → Fin n1 → Fin n2 → ℝ :=
  fun j0 j1 j2 => (ifftn (halfWedgeMaskedFFT v angleDeg) j0 j1 j2).re

end

/-- The rotation angle of alignWedge.py lines 52-54 (half-difference
convention): rotation = (abs start - abs end) / 2. -/
def computeRotationAngleHalfDiff (tiltStart tiltEnd : ℚ) : ℚ :=
  (|tiltStart| - |tiltEnd|) / 2

/-- The rotation angle of rotate.py lines 28-31 and rotateTomo.py lines 18-21
(complement convention): wedgeStart = 90 + start, wedgeEnd = 90 - end,
rotation = wedgeEnd - (wedgeStart + wedgeEnd) / 2. -/
def computeRotationAngleComplement (tiltStart tiltEnd : ℚ) : ℚ :=
  (90 - tiltEnd) - ((90 + tiltStart) + (90 - tiltEnd)) / 2

/-- The argument record of a call to the external collaborator
scipy.ndimage.rotate: rotation angle in degrees, the pair of array axes
spanning the rotation plane, the reshape flag, the spline interpolation
order, the out-of-bounds fill mode and its constant fill value. -/
structure NDRotateArgs where
  angleDeg : ℚ
  axes : ℕ × ℕ
  reshape : Bool
  order : ℕ
  mode : String
  cval : ℚ
  deriving DecidableEq

/-- The call alignWedge.py line 67 makes for a tilt pair: rotate by minus the
half-difference rotation angle, in the plane of axes 0 and 2, without
reshaping, with cubic (order 3) spline interpolation and constant fill 0.
This is the compute core the spec calls rotateToSymmetrize. -/
def rotateToSymmetrizeCall (tiltStart tiltEnd : ℚ) : NDRotateArgs :=
  { angleDeg := -computeRotationAngleHalfDiff tiltStart tiltEnd
    axes := (0, 2)
    reshape := false
    order := 3
    mode := "constant"
    cval := 0 }

/-- Modelled from the spec: the output-shape contract of the external
scipy.ndimage.rotate collaborator, which is library code outside the
repository.  With the reshape flag off the output keeps the input shape
exactly, clipping rotated content that falls outside the original bounding
box; the expanded shape of the reshape variant is outside the modelled
contract and is returned as none. -/
def ndRotateShape (shape : ℕ × ℕ × ℕ) (c : NDRotateArgs) :
    Option (ℕ × ℕ × ℕ) :=
  if c.reshape then none else some shape

/-- A plain 3-D array of real samples with explicit axis lengths, the volume
abstraction the plotting utilities slice. -/
structure NVol where
  n0 : ℕ
  n1 : ℕ
  n2 : ℕ
  data : ℕ → ℕ → ℕ → ℝ

/-- The slice selection of mkImageStack (plot.py lines 188-196): the volume
itself for plane XY, np.transpose(tomo, (1, 0, 2)) for plane XZ,
np.transpose(tomo, (2, 0, 1)) for plane YZ, and a ValueError for any other
token, embedded as the error branch of Except. -/
def mkImageStackSlices (plane : String) (tomo : NVol) : Except String NVol :=
  if plane = "XY" then Except.ok tomo
  else if plane = "XZ" then
    Except.ok ⟨tomo.n1, tomo.n0, tomo.n2, fun i j k => tomo.data j i k⟩
  else if plane = "YZ" then
    Except.ok ⟨tomo.n2, tomo.n0, tomo.n1, fun i j k => tomo.data j k i⟩
  else Except.error ("Invalid plane. Choose from XY, XZ, or YZ.")

/-- The slice selection of mkPowerSpectrum (plot.py lines 267-275), applied to
the normalized log magnitude spectrum computed before it: same three plane
tokens, same transposes, same ValueError for any other token.  The numeric
normalization preceding the dispatch is total and cannot raise, so the raise
condition of the operation is exactly the dispatch condition. -/
def mkPowerSpectrumSlices (plane : String) (spectrum : NVol) :
    Except String NVol :=
  if plane = "XY" then Except.ok spectrum
  else if plane = "XZ" then
    Except.ok ⟨spectrum.n1, spectrum.n0, spectrum.n2, fun i j k => spectrum.data j i k⟩
  else if plane = "YZ" then
    Except.ok ⟨spectrum.n2, spectrum.n0, spectrum.n1, fun i j k => spectrum.data j k i⟩
  else Except.error ("Invalid plane. Choose from XY, XZ, or YZ.")

/-- The mask as claim C1 words it, for refinement comparison with the source
mask symWedgeMaskF: theta with the signed axis-2 frequency as the FIRST atan2
argument and the signed axis-0 frequency as the second. -/
noncomputable def claimSymWedgeMaskF (negDeg posDeg : ℝ) (f0 f2 : ℤ) : Prop :=
  atan2 ((f2 : ℝ)) ((f0 : ℝ)) < deg2rad negDeg ∨
    deg2rad posDeg < atan2 ((f2 : ℝ)) ((f0 : ℝ))

/-- Concrete test volume of shape (3, 1, 1): a single unit impulse at the
origin. -/
def tvA : Fin 3 → Fin 1 → Fin 1 → ℝ := fun j _ _ => if j = 0 then 1 else 0

/-- Concrete test volume of shape (1, 1, 2): a single unit impulse at the
origin. -/
def tvB : Fin 1 → Fin 1 → Fin 2 → ℝ := fun _ _ k => if k = 0 then 1 else 0

end TomoUtils

namespace TomoUtils

/-- atan2 at the origin is 0, as for np.arctan2. -/
theorem atan2_zero_zero : atan2 0 0 = 0 := by
  simp [atan2]

/-- atan2 on the closed positive x half-axis is 0. -/
theorem atan2_zero_of_nonneg {x : ℝ} (hx : 0 ≤ x) : atan2 0 x = 0 := by
  simp only [atan2, Complex.ofReal_zero, zero_mul, add_zero]
  exact Complex.arg_ofReal_of_nonneg hx

/-- atan2 on the negative x half-axis is pi. -/
theorem atan2_zero_of_neg {x : ℝ} (hx : x < 0) : atan2 0 x = Real.pi := by
  simp only [atan2, Complex.ofReal_zero, zero_mul, add_zero]
  exact Complex.arg_ofReal_of_neg hx

/-- atan2 on the positive y half-axis is pi over 2. -/
theorem atan2_pos_zero {y : ℝ} (hy : 0 < y) : atan2 y 0 = Real.pi / 2 := by
  simp only [atan2, Complex.ofReal_zero, zero_add]
  rw [← Complex.arg_I, ← Complex.arg_real_mul Complex.I hy]

/-- atan2 on the negative y half-axis is minus pi over 2. -/
theorem atan2_neg_zero {y : ℝ} (hy : y < 0) : atan2 y 0 = -(Real.pi / 2) := by
  simp only [atan2, Complex.ofReal_zero, zero_add]
  have h : (y : ℂ) * Complex.I = ((-y : ℝ) : ℂ) * (-Complex.I) := by
    push_cast
    ring
  rw [h, ← Complex.arg_neg_I, ← Complex.arg_real_mul (-Complex.I) (neg_pos.mpr hy)]

/-- In the open right half-plane atan2 is the one-argument arctangent of the
slope. -/
theorem atan2_of_pos {y x : ℝ} (hx : 0 < x) :
    atan2 y x = Real.arctan (y / x) := by
  set t := Real.arctan (y / x) with ht
  have hc : 0 < Real.cos t := Real.cos_arctan_pos _
  have hr : 0 < x / Real.cos t := div_pos hx hc
  have hmem : t ∈ Set.Ioc (-Real.pi) Real.pi := by
    constructor
    · have := Real.neg_pi_div_two_lt_arctan (y / x)
      have hπ := Real.pi_pos
      rw [← ht] at this
      linarith
    · have := Real.arctan_lt_pi_div_two (y / x)
      have hπ := Real.pi_pos
      rw [← ht] at this
      linarith
  have h1 : x / Real.cos t * Real.cos t = x := div_mul_cancel₀ x hc.ne'
  have h2 : x / Real.cos t * Real.sin t = y := by
    calc x / Real.cos t * Real.sin t = x * (Real.sin t / Real.cos t) := by ring
      _ = x * Real.tan t := by rw [Real.tan_eq_sin_div_cos]
      _ = x * (y / x) := by rw [ht, Real.tan_arctan]
      _ = y := by field_simp
  have key := Complex.arg_mul_cos_add_sin_mul_I hr hmem
  have heq : ((x / Real.cos t : ℝ) : ℂ) *
      (Complex.cos (t : ℂ) + Complex.sin (t : ℂ) * Complex.I) =
      (x : ℂ) + (y : ℂ) * Complex.I := by
    rw [← Complex.ofReal_cos, ← Complex.ofReal_sin]
    calc ((x / Real.cos t : ℝ) : ℂ) *
        (((Real.cos t : ℝ) : ℂ) + ((Real.sin t : ℝ) : ℂ) * Complex.I) =
        ((x / Real.cos t * Real.cos t : ℝ) : ℂ) +
          ((x / Real.cos t * Real.sin t : ℝ) : ℂ) * Complex.I := by
          push_cast
          ring
      _ = (x : ℂ) + (y : ℂ) * Complex.I := by rw [h1, h2]
  rw [atan2, ← heq]
  exact key

/-- atan2 never exceeds pi. -/
theorem atan2_le_pi (y x : ℝ) : atan2 y x ≤ Real.pi :=
  Complex.arg_le_pi _

/-- atan2 is strictly above minus pi. -/
theorem neg_pi_lt_atan2 (y x : ℝ) : -Real.pi < atan2 y x :=
  Complex.neg_pi_lt_arg _

/-- The absolute value passes through the arctangent. -/
theorem abs_arctan (t : ℝ) : |Real.arctan t| = Real.arctan |t| := by
  rcases le_or_lt 0 t with h | h
  · rw [abs_of_nonneg h, abs_of_nonneg]
    rw [← Real.arctan_zero]
    exact Real.arctan_strictMono.monotone h
  · have h1 : Real.arctan t < 0 := by
      rw [← Real.arctan_zero]
      exact Real.arctan_strictMono h
    rw [abs_of_neg h1, abs_of_neg h, ← Real.arctan_neg]

/-- deg2rad of a negated angle. -/
theorem deg2rad_neg (d : ℝ) : deg2rad (-d) = -deg2rad d := by
  simp only [deg2rad]
  ring

/-- deg2rad of a nonpositive angle is nonpositive. -/
theorem deg2rad_nonpos {d : ℝ} (hd : d ≤ 0) : deg2rad d ≤ 0 := by
  have hπ := Real.pi_pos
  simp only [deg2rad]
  nlinarith

/-- deg2rad of a nonnegative angle is nonnegative. -/
theorem deg2rad_nonneg {d : ℝ} (hd : 0 ≤ d) : 0 ≤ deg2rad d := by
  have hπ := Real.pi_pos
  simp only [deg2rad]
  nlinarith

/-- deg2rad of a positive angle is positive. -/
theorem deg2rad_pos {d : ℝ} (hd : 0 < d) : 0 < deg2rad d := by
  have hπ := Real.pi_pos
  simp only [deg2rad]
  nlinarith

/-- Angles below 90 degrees map below pi over 2. -/
theorem deg2rad_lt_pi_div_two {d : ℝ} (hd : d < 90) :
    deg2rad d < Real.pi / 2 := by
  have hπ := Real.pi_pos
  simp only [deg2rad]
  nlinarith

/-- Angles above 180 degrees map above pi. -/
theorem pi_lt_deg2rad {d : ℝ} (hd : 180 < d) : Real.pi < deg2rad d := by
  have hπ := Real.pi_pos
  simp only [deg2rad]
  nlinarith

/-- Angles at most minus 180 degrees map to at most minus pi. -/
theorem deg2rad_le_neg_pi {d : ℝ} (hd : d ≤ -180) : deg2rad d ≤ -Real.pi := by
  have hπ := Real.pi_pos
  simp only [deg2rad]
  nlinarith

/-- Angles at least 180 degrees map to at least pi. -/
theorem pi_le_deg2rad {d : ℝ} (hd : 180 ≤ d) : Real.pi ≤ deg2rad d := by
  have hπ := Real.pi_pos
  simp only [deg2rad]
  nlinarith

/-- deg2rad of a complemented angle. -/
theorem deg2rad_ninety_sub (a : ℝ) :
    deg2rad (90 - a) = Real.pi / 2 - deg2rad a := by
  simp only [deg2rad]
  ring

/-- The forward twiddle factor is 1 when the frequency index is 0. -/
theorem twiddle_zero_left (n j : ℕ) : twiddle n 0 j = 1 := by
  simp [twiddle]

/-- The forward twiddle factor is 1 when the sample index is 0. -/
theorem twiddle_zero_right (n k : ℕ) : twiddle n k 0 = 1 := by
  simp [twiddle]

/-- The forward twiddle factor at n = 2, k = j = 1 is -1. -/
theorem twiddle_two_one_one : twiddle 2 1 1 = -1 := by
  have h : -(2 * (Real.pi : ℂ) * Complex.I) * ((1 * 1 : ℕ) : ℂ) / ((2 : ℕ) : ℂ) =
      -((Real.pi : ℂ) * Complex.I) := by
    push_cast
    ring
  rw [twiddle, h, Complex.exp_neg, Complex.exp_pi_mul_I]
  norm_num

/-- The inverse twiddle factor is 1 when the frequency index is 0. -/
theorem itwiddle_zero_left (n j : ℕ) : itwiddle n 0 j = 1 := by
  simp [itwiddle]

/-- The inverse twiddle factor is 1 when the sample index is 0. -/
theorem itwiddle_zero_right (n k : ℕ) : itwiddle n k 0 = 1 := by
  simp [itwiddle]

/-- The inverse twiddle factor at n = 2, k = j = 1 is -1. -/
theorem itwiddle_two_one_one : itwiddle 2 1 1 = -1 := by
  have h : (2 * (Real.pi : ℂ) * Complex.I) * ((1 * 1 : ℕ) : ℂ) / ((2 : ℕ) : ℂ) =
      (Real.pi : ℂ) * Complex.I := by
    push_cast
    ring
  rw [itwiddle, h, Complex.exp_pi_mul_I]

/-- C6: for every axis of positive length n, the 1-D frequency array used to
build the wedge mask maps index i to the signed frequency i when i < n / 2 and
to i - n otherwise, for all indices i below n. -/
theorem C6_fftfreq_ordering (n i : ℕ) (hn : 0 < n) (hi : i < n) :
    fftfreqTimesN n i = if 2 * i < n then (i : ℤ) else (i : ℤ) - (n : ℤ) := by
  simp only [fftfreqTimesN]
  split_ifs with h1 h2 <;> omega

/-- Witness for C6 at n = 4, i = 3. -/
theorem C6_fftfreq_ordering_witness :
    0 < 4 ∧ 3 < 4 ∧
      fftfreqTimesN 4 3 = (if 2 * 3 < 4 then (3 : ℤ) else (3 : ℤ) - (4 : ℤ)) :=
  ⟨by decide, by decide, C6_fftfreq_ordering 4 3 (by decide) (by decide)⟩

/-- C3: the half-difference convention returns (abs tiltStart - abs tiltEnd)/2
for every pair, with rotation 15 at (-60, 30) and rotation 0 at (-45, 45). -/
theorem C3_half_difference :
    (∀ tiltStart tiltEnd : ℚ,
        computeRotationAngleHalfDiff tiltStart tiltEnd =
          (|tiltStart| - |tiltEnd|) / 2) ∧
      computeRotationAngleHalfDiff (-60) 30 = 15 ∧
      computeRotationAngleHalfDiff (-45) 45 = 0 := by
  refine ⟨fun s e => rfl, by norm_num [computeRotationAngleHalfDiff],
    by norm_num [computeRotationAngleHalfDiff]⟩

/-- C4: the complement convention computes wedgeStart = 90 + tiltStart and
wedgeEnd = 90 - tiltEnd and returns wedgeEnd - (wedgeStart + wedgeEnd)/2 for
every pair; at (-60, 30) the wedge angles are 30 and 60, their sum is 90 and
the rotation is 15. -/
theorem C4_complement :
    (∀ tiltStart tiltEnd : ℚ,
        computeRotationAngleComplement tiltStart tiltEnd =
          (90 - tiltEnd) - ((90 + tiltStart) + (90 - tiltEnd)) / 2) ∧
      (90 + (-60 : ℚ) = 30 ∧ 90 - (30 : ℚ) = 60 ∧ (30 : ℚ) + 60 = 90 ∧
        computeRotationAngleComplement (-60) 30 = 15) := by
  refine ⟨fun s e => rfl, by norm_num, by norm_num, by norm_num,
    by norm_num [computeRotationAngleComplement]⟩

/-- C2 counterexample: the claim asserts some pair with tiltStart at most 0 at
most tiltEnd on which the two conventions differ; in fact no such pair exists,
because on the documented sign convention both formulas reduce to
(-tiltStart - tiltEnd)/2. -/
theorem C2_counterexample :
    ¬ ∃ tiltStart tiltEnd : ℚ, tiltStart ≤ 0 ∧ 0 ≤ tiltEnd ∧
        computeRotationAngleHalfDiff tiltStart tiltEnd ≠
          computeRotationAngleComplement tiltStart tiltEnd := by
  rintro ⟨s, e, hs, he, hne⟩
  apply hne
  simp only [computeRotationAngleHalfDiff, computeRotationAngleComplement,
    abs_of_nonpos hs, abs_of_nonneg he]
  ring

/-- C2 amended: the two conventions yield equal rotation angles on every pair
satisfying the documented sign convention tiltStart at most 0 at most tiltEnd,
symmetric or asymmetric alike; they diverge only for pairs violating that sign
convention, for example (10, 20). -/
theorem C2_conventions_agree :
    (∀ tiltStart tiltEnd : ℚ, tiltStart ≤ 0 → 0 ≤ tiltEnd →
        computeRotationAngleHalfDiff tiltStart tiltEnd =
          computeRotationAngleComplement tiltStart tiltEnd) ∧
      computeRotationAngleHalfDiff 10 20 ≠
        computeRotationAngleComplement 10 20 := by
  constructor
  · intro s e hs he
    simp only [computeRotationAngleHalfDiff, computeRotationAngleComplement,
      abs_of_nonpos hs, abs_of_nonneg he]
    ring
  · norm_num [computeRotationAngleHalfDiff, computeRotationAngleComplement]

/-- C5: for every tilt pair, rotateToSymmetrize rotates by minus the
half-difference rotation angle in the plane of axes 0 and 2, with cubic
(order 3) interpolation, constant fill value 0 and no reshaping, and for
every input shape the output shape equals the input shape. -/
theorem C5_rotate_call (tiltStart tiltEnd : ℚ) :
    (rotateToSymmetrizeCall tiltStart tiltEnd).angleDeg =
        -computeRotationAngleHalfDiff tiltStart tiltEnd ∧
      (rotateToSymmetrizeCall tiltStart tiltEnd).axes = (0, 2) ∧
      (rotateToSymmetrizeCall tiltStart tiltEnd).order = 3 ∧
      (rotateToSymmetrizeCall tiltStart tiltEnd).mode = "constant" ∧
      (rotateToSymmetrizeCall tiltStart tiltEnd).cval = 0 ∧
      (rotateToSymmetrizeCall tiltStart tiltEnd).reshape = false ∧
      ∀ shape : ℕ × ℕ × ℕ,
        ndRotateShape shape (rotateToSymmetrizeCall tiltStart tiltEnd) =
          some shape :=
  ⟨rfl, rfl, rfl, rfl, rfl, rfl, fun _ => rfl⟩

/-- C8: the plane-aware operations mkImageStack and mkPowerSpectrum raise an
invalid-parameter error exactly when the plane token is none of XY, XZ, YZ,
and raise no such error on any recognized token. -/
theorem C8_plane_validation (plane : String) (t s : NVol) :
    ((∃ e, mkImageStackSlices plane t = Except.error e) ↔
        ¬(plane = "XY" ∨ plane = "XZ" ∨ plane = "YZ")) ∧
      ((∃ e, mkPowerSpectrumSlices plane s = Except.error e) ↔
        ¬(plane = "XY" ∨ plane = "XZ" ∨ plane = "YZ")) := by
  constructor <;>
    · simp only [mkImageStackSlices, mkPowerSpectrumSlices]
      split_ifs with h1 h2 h3 <;> simp_all

/-- C10: under the documented sign convention the DC voxel has angle
atan2(0, 0) = 0, satisfies neither strict mask inequality, and its
coefficient — the plain sum of all samples — passes the masking step
unchanged. -/
theorem C10_dc_never_zeroed {n0 n1 n2 : ℕ} (v : Fin n0 → Fin n1 → Fin n2 → ℝ)
    (negDeg posDeg : ℝ) (hneg : negDeg ≤ 0) (hpos : 0 ≤ posDeg)
    (h0 : 0 < n0) (h1 : 0 < n1) (h2 : 0 < n2) :
    thetaF (fftfreqTimesN n0 0) (fftfreqTimesN n2 0) = 0 ∧
      ¬ missing_wedge_mask n0 n2 negDeg posDeg 0 0 ∧
      wedgeMaskedFFT v negDeg posDeg ⟨0, h0⟩ ⟨0, h1⟩ ⟨0, h2⟩ =
        ∑ j0 : Fin n0, ∑ j1 : Fin n1, ∑ j2 : Fin n2, ((v j0 j1 j2 : ℝ) : ℂ) := by
  have hf0 : fftfreqTimesN n0 0 = 0 := by simp [fftfreqTimesN]
  have hf2 : fftfreqTimesN n2 0 = 0 := by simp [fftfreqTimesN]
  have hθ : thetaF (fftfreqTimesN n0 0) (fftfreqTimesN n2 0) = 0 := by
    rw [hf0, hf2]
    simp only [thetaF, Int.cast_zero]
    exact atan2_zero_zero
  have hmask : ¬ missing_wedge_mask n0 n2 negDeg posDeg 0 0 := by
    simp only [missing_wedge_mask, symWedgeMaskF]
    rw [show thetaF (fftfreqTimesN n0 0) (fftfreqTimesN n2 0) = 0 from hθ]
    rintro (h | h)
    · exact absurd h (not_lt.mpr (deg2rad_nonpos hneg))
    · exact absurd h (not_lt.mpr (deg2rad_nonneg hpos))
  refine ⟨hθ, hmask, ?_⟩
  simp only [wedgeMaskedFFT]
  rw [if_neg hmask]
  simp [fftn, twiddle_zero_left]

/-- Witness for C10 on a constant volume of value 2 on a 1 by 1 by 1 grid
with the tilt pair (-60, 30). -/
theorem C10_dc_never_zeroed_witness :
    ((-60 : ℝ) ≤ 0 ∧ (0 : ℝ) ≤ 30) ∧
      wedgeMaskedFFT (fun _ _ _ => (2 : ℝ) : Fin 1 → Fin 1 → Fin 1 → ℝ)
          (-60) 30 ⟨0, Nat.one_pos⟩ ⟨0, Nat.one_pos⟩ ⟨0, Nat.one_pos⟩ = 2 := by
  refine ⟨⟨by norm_num, by norm_num⟩, ?_⟩
  have h := (C10_dc_never_zeroed (fun _ _ _ => (2 : ℝ)) (-60) 30 (by norm_num)
    (by norm_num) Nat.one_pos Nat.one_pos Nat.one_pos).2.2
  rw [h]
  norm_num

/-- C7 amended: the masker validates nothing — every coefficient of every
volume is either zeroed or passed through for every angle pair — and the mask
degenerates to entirely true once the neg angle exceeds 180 degrees and to
entirely false once the pair encloses the whole principal range
(neg at most -180, pos at least 180); a pair that merely violates the sign
convention yields a mixed mask. -/
theorem C7_no_validation :
    (∀ (n0 n1 n2 : ℕ) (v : Fin n0 → Fin n1 → Fin n2 → ℝ) (negDeg posDeg : ℝ)
        (k0 : Fin n0) (k1 : Fin n1) (k2 : Fin n2),
        wedgeMaskedFFT v negDeg posDeg k0 k1 k2 = 0 ∨
          wedgeMaskedFFT v negDeg posDeg k0 k1 k2 =
            fftn (fun a b c => ((v a b c : ℝ) : ℂ)) k0 k1 k2) ∧
      (∀ (n0 n2 : ℕ) (negDeg posDeg : ℝ) (i0 i2 : ℕ), 180 < negDeg →
        missing_wedge_mask n0 n2 negDeg posDeg i0 i2) ∧
      (∀ (n0 n2 : ℕ) (negDeg posDeg : ℝ) (i0 i2 : ℕ),
        negDeg ≤ -180 → 180 ≤ posDeg →
          ¬ missing_wedge_mask n0 n2 negDeg posDeg i0 i2) := by
  refine ⟨?_, ?_, ?_⟩
  · intro n0 n1 n2 v negDeg posDeg k0 k1 k2
    simp only [wedgeMaskedFFT]
    split_ifs with h
    · exact Or.inl rfl
    · exact Or.inr rfl
  · intro n0 n2 negDeg posDeg i0 i2 hneg
    simp only [missing_wedge_mask, symWedgeMaskF, thetaF]
    exact Or.inl (lt_of_le_of_lt (atan2_le_pi _ _) (pi_lt_deg2rad hneg))
  · intro n0 n2 negDeg posDeg i0 i2 hneg hpos
    simp only [missing_wedge_mask, symWedgeMaskF, thetaF]
    rintro (h | h)
    · have h1 := deg2rad_le_neg_pi hneg
      have h2 := neg_pi_lt_atan2
        ((fftfreqTimesN n0 i0 : ℤ) : ℝ) ((fftfreqTimesN n2 i2 : ℤ) : ℝ)
      linarith
    · have h1 := pi_le_deg2rad hpos
      have h2 := atan2_le_pi
        ((fftfreqTimesN n0 i0 : ℤ) : ℝ) ((fftfreqTimesN n2 i2 : ℤ) : ℝ)
      linarith

/-- Witness for C7 amended: the all-true degenerate mask at neg angle 190 and
the all-false degenerate mask at the pair (-180, 180), both on a 1 by 1 grid
of the axis-0 and axis-2 lengths. -/
theorem C7_no_validation_witness :
    ((180 : ℝ) < 190 ∧ missing_wedge_mask 1 1 190 300 0 0) ∧
      ((-180 : ℝ) ≤ -180 ∧ (180 : ℝ) ≤ 180 ∧
        ¬ missing_wedge_mask 1 1 (-180) 180 0 0) :=
  ⟨⟨by norm_num, C7_no_validation.2.1 1 1 190 300 0 0 (by norm_num)⟩,
    ⟨le_refl _, le_refl _,
      C7_no_validation.2.2 1 1 (-180) 180 0 0 (by norm_num) (by norm_num)⟩⟩

/-- C7 counterexample: the pair (90, 180) violates the expected sign
convention yet produces a mask that is neither entirely true nor entirely
false on an axis-0 length 1, axis-2 length 2 grid: the DC voxel is masked
while the voxel of axis-2 frequency -1 is not. -/
theorem C7_counterexample :
    missing_wedge_mask 1 2 90 180 0 0 ∧ ¬ missing_wedge_mask 1 2 90 180 0 1 := by
  have h90 : deg2rad 90 = Real.pi / 2 := by
    rw [deg2rad]
    ring
  have h180 : deg2rad 180 = Real.pi := by
    rw [deg2rad]
    ring
  constructor
  · simp only [missing_wedge_mask, symWedgeMaskF, thetaF]
    rw [show fftfreqTimesN 1 0 = 0 from rfl, show fftfreqTimesN 2 0 = 0 from rfl]
    simp only [Int.cast_zero]
    rw [atan2_zero_zero, h90]
    exact Or.inl (by positivity)
  · simp only [missing_wedge_mask, symWedgeMaskF, thetaF]
    rw [show fftfreqTimesN 1 0 = 0 from rfl, show fftfreqTimesN 2 1 = -1 from rfl]
    simp only [Int.cast_zero, Int.cast_neg, Int.cast_one]
    rw [atan2_zero_of_neg (by norm_num), h90, h180]
    rintro (h | h)
    · have hπ := Real.pi_pos
      linarith
    · exact lt_irrefl _ h

section
open Classical

/-- C1 amended: add_missing_wedge computes theta = atan2 of the signed
axis-0 frequency (first argument) and the signed axis-2 frequency (second
argument) — the argument order opposite to the claim — and before the
inverse transform zeroes exactly the coefficients with theta strictly below
the neg angle or strictly above the pos angle, leaving every other
coefficient unchanged. -/
theorem C1_mask_characterization {n0 n1 n2 : ℕ}
    (v : Fin n0 → Fin n1 → Fin n2 → ℝ) (negDeg posDeg : ℝ)
    (k0 : Fin n0) (k1 : Fin n1) (k2 : Fin n2) :
    wedgeMaskedFFT v negDeg posDeg k0 k1 k2 =
        (if atan2 ((fftfreqTimesN n0 (k0 : ℕ) : ℤ) : ℝ)
              ((fftfreqTimesN n2 (k2 : ℕ) : ℤ) : ℝ) < deg2rad negDeg ∨
            deg2rad posDeg < atan2 ((fftfreqTimesN n0 (k0 : ℕ) : ℤ) : ℝ)
              ((fftfreqTimesN n2 (k2 : ℕ) : ℤ) : ℝ) then 0
          else fftn (fun a b c => ((v a b c : ℝ) : ℂ)) k0 k1 k2) ∧
      add_missing_wedge v negDeg posDeg = fun j0 j1 j2 =>
        (ifftn (wedgeMaskedFFT v negDeg posDeg) j0 j1 j2).re := by
  constructor
  · simp only [wedgeMaskedFFT, missing_wedge_mask, symWedgeMaskF, thetaF]
    split_ifs <;> rfl
  · rfl

end

/-- C1 counterexample: at shape (3, 1, 1) with the documented angles
(-60, 30), the voxel of axis-0 frequency 1 and axis-2 frequency 0 is NOT
selected by the mask the claim describes (its atan2(kAxis2, kAxis0) is
atan2(0, 1) = 0, inside the kept band), yet the code masks it
(atan2(kAxis0, kAxis2) = atan2(1, 0) = pi/2 > 30 degrees) and zeroes its
coefficient, whose unmasked value is 1. -/
theorem C1_counterexample :
    ¬ claimSymWedgeMaskF (-60) 30 (fftfreqTimesN 3 1) (fftfreqTimesN 1 0) ∧
      missing_wedge_mask 3 1 (-60) 30 1 0 ∧
      fftn (fun a b c => ((tvA a b c : ℝ) : ℂ)) 1 0 0 = 1 ∧
      wedgeMaskedFFT tvA (-60) 30 1 0 0 = 0 := by
  have hf0 : fftfreqTimesN 3 1 = 1 := rfl
  have hf2 : fftfreqTimesN 1 0 = 0 := rfl
  have hmask : missing_wedge_mask 3 1 (-60) 30 1 0 := by
    simp only [missing_wedge_mask, symWedgeMaskF, thetaF, hf0, hf2,
      Int.cast_one, Int.cast_zero]
    rw [atan2_pos_zero one_pos]
    exact Or.inr (deg2rad_lt_pi_div_two (by norm_num))
  refine ⟨?_, hmask, ?_, ?_⟩
  · simp only [claimSymWedgeMaskF, hf0, hf2, Int.cast_one, Int.cast_zero]
    rw [atan2_zero_of_nonneg zero_le_one]
    rintro (h | h)
    · exact absurd h (not_lt.mpr (deg2rad_nonpos (by norm_num)))
    · exact absurd h (not_lt.mpr (deg2rad_nonneg (by norm_num)))
  · simp [fftn, tvA, Fin.sum_univ_three, Fin.sum_univ_one,
      twiddle_zero_right, twiddle_zero_left]
  · simp only [wedgeMaskedFFT]
    rw [if_pos]
    exact hmask

/-- C9 amended: the symmetric-range mask at (-a, a) and the half-angle mask
at 90 - a agree exactly at every frequency voxel whose axis-2 frequency is
positive, and at every voxel with axis-2 frequency zero and axis-0 frequency
nonzero; they disagree at the DC voxel and on part of the negative axis-2
half-space, so the volume-level equality of the claim fails. -/
theorem C9_mask_agreement (a : ℝ) (f0 f2 : ℤ) (ha0 : 0 < a) (ha90 : a < 90)
    (hf : 0 < f2 ∨ (f2 = 0 ∧ f0 ≠ 0)) :
    symWedgeMaskF (-a) a f0 f2 ↔ halfWedgeMaskF (90 - a) f0 f2 := by
  have hπ := Real.pi_pos
  have hα0 : 0 < deg2rad a := deg2rad_pos ha0
  have hα2 : deg2rad a < Real.pi / 2 := deg2rad_lt_pi_div_two ha90
  rcases hf with hf2 | ⟨hf2, hf0⟩
  · have hx : (0 : ℝ) < (f2 : ℝ) := by exact_mod_cast hf2
    by_cases hf0 : f0 = 0
    · subst hf0
      simp only [symWedgeMaskF, thetaF, halfWedgeMaskF, Int.cast_zero, abs_zero]
      rw [atan2_of_pos hx, zero_div, Real.arctan_zero, deg2rad_neg,
        abs_of_pos hx, atan2_pos_zero hx, deg2rad_ninety_sub]
      constructor
      · rintro (h | h) <;> linarith
      · intro h
        exfalso
        linarith
    · have habs : (0 : ℝ) < |(f0 : ℝ)| := abs_pos.mpr (by exact_mod_cast hf0)
      simp only [symWedgeMaskF, thetaF, halfWedgeMaskF]
      rw [atan2_of_pos hx, atan2_of_pos habs, deg2rad_neg, deg2rad_ninety_sub]
      have key : |(f2 : ℝ)| / |(f0 : ℝ)| = (|(f0 : ℝ)| / (f2 : ℝ))⁻¹ := by
        rw [abs_of_pos hx, inv_div]
      rw [key, Real.arctan_inv_of_pos (div_pos habs hx)]
      have habs_eq : Real.arctan (|(f0 : ℝ)| / (f2 : ℝ)) =
          |Real.arctan ((f0 : ℝ) / (f2 : ℝ))| := by
        rw [abs_arctan, abs_div, abs_of_pos hx]
      rw [habs_eq, sub_lt_sub_iff_left, lt_abs]
      constructor
      · rintro (h | h)
        · exact Or.inr (by linarith)
        · exact Or.inl h
      · rintro (h | h)
        · exact Or.inr h
        · exact Or.inl (by linarith)
  · subst hf2
    have hf0R : ((f0 : ℝ)) ≠ 0 := by exact_mod_cast hf0
    simp only [symWedgeMaskF, thetaF, halfWedgeMaskF, Int.cast_zero, abs_zero]
    rw [atan2_zero_of_nonneg (abs_nonneg _), deg2rad_ninety_sub, deg2rad_neg]
    rcases lt_or_gt_of_ne hf0R with hneg | hpos
    · rw [atan2_neg_zero hneg]
      constructor
      · intro _
        linarith
      · intro _
        exact Or.inl (by linarith)
    · rw [atan2_pos_zero hpos]
      constructor
      · intro _
        linarith
      · intro _
        exact Or.inr (by linarith)

/-- Witness for C9 amended at a = 30 and the frequency pair (1, 1). -/
theorem C9_mask_agreement_witness :
    ((0 : ℝ) < 30 ∧ (30 : ℝ) < 90 ∧ (0 : ℤ) < 1) ∧
      (symWedgeMaskF (-30) 30 1 1 ↔ halfWedgeMaskF (90 - 30) 1 1) :=
  ⟨⟨by norm_num, by norm_num, by norm_num⟩,
    C9_mask_agreement 30 1 1 (by norm_num) (by norm_num) (Or.inl (by norm_num))⟩

/-- C9 counterexample: on the unit impulse volume of shape (1, 1, 2) with
a = 30, the symmetric-range masker keeps the DC coefficient and zeroes the
axis-2 frequency -1 coefficient, while the spec-modelled half-angle masker at
90 - 30 degrees does the opposite, so the two outputs differ at voxel
(0, 0, 1): 1/2 versus -1/2. -/
theorem C9_counterexample :
    add_missing_wedge tvB (-30) 30 0 0 1 = 1 / 2 ∧
      applyWedgeByHalfAngle tvB (90 - 30) 0 0 1 = -(1 / 2) ∧
      add_missing_wedge tvB (-30) 30 ≠ applyWedgeByHalfAngle tvB (90 - 30) := by
  have hπ := Real.pi_pos
  have hF0 : fftn (fun a b c => ((tvB a b c : ℝ) : ℂ)) 0 0 0 = 1 := by
    simp [fftn, tvB, Fin.sum_univ_two, Fin.sum_univ_one,
      twiddle_zero_right, twiddle_zero_left]
  have hF1 : fftn (fun a b c => ((tvB a b c : ℝ) : ℂ)) 0 0 1 = 1 := by
    simp [fftn, tvB, Fin.sum_univ_two, Fin.sum_univ_one,
      twiddle_zero_right, twiddle_zero_left]
  have hm0 : ¬ missing_wedge_mask 1 2 (-30) 30 0 0 := by
    simp only [missing_wedge_mask, symWedgeMaskF, thetaF,
      show fftfreqTimesN 1 0 = 0 from rfl, show fftfreqTimesN 2 0 = 0 from rfl,
      Int.cast_zero]
    rw [atan2_zero_zero]
    rintro (h | h)
    · exact absurd h (not_lt.mpr (deg2rad_nonpos (by norm_num)))
    · exact absurd h (not_lt.mpr (deg2rad_nonneg (by norm_num)))
  have hm1 : missing_wedge_mask 1 2 (-30) 30 0 1 := by
    simp only [missing_wedge_mask, symWedgeMaskF, thetaF,
      show fftfreqTimesN 1 0 = 0 from rfl, show fftfreqTimesN 2 1 = -1 from rfl,
      Int.cast_zero, Int.cast_neg, Int.cast_one]
    rw [atan2_zero_of_neg (by norm_num)]
    exact Or.inr (lt_trans (deg2rad_lt_pi_div_two (by norm_num)) (by linarith))
  have hh0 : halfWedgeMaskF (90 - 30) (fftfreqTimesN 1 0) (fftfreqTimesN 2 0) := by
    simp only [halfWedgeMaskF, show fftfreqTimesN 1 0 = 0 from rfl,
      show fftfreqTimesN 2 0 = 0 from rfl, Int.cast_zero, abs_zero]
    rw [atan2_zero_zero]
    exact deg2rad_pos (by norm_num)
  have hh1 : ¬ halfWedgeMaskF (90 - 30) (fftfreqTimesN 1 0) (fftfreqTimesN 2 1) := by
    simp only [halfWedgeMaskF, show fftfreqTimesN 1 0 = 0 from rfl,
      show fftfreqTimesN 2 1 = -1 from rfl, Int.cast_zero, Int.cast_neg,
      Int.cast_one, abs_zero, abs_neg, abs_one]
    rw [atan2_pos_zero one_pos]
    exact not_lt.mpr (le_of_lt (deg2rad_lt_pi_div_two (by norm_num)))
  have hW0 : wedgeMaskedFFT tvB (-30) 30 0 0 0 = 1 := by
    simp only [wedgeMaskedFFT]
    rw [if_neg]
    · exact hF0
    · exact hm0
  have hW1 : wedgeMaskedFFT tvB (-30) 30 0 0 1 = 0 := by
    simp only [wedgeMaskedFFT]
    rw [if_pos]
    exact hm1
  have hH0 : halfWedgeMaskedFFT tvB (90 - 30) 0 0 0 = 0 := by
    simp only [halfWedgeMaskedFFT]
    rw [if_pos]
    exact hh0
  have hH1 : halfWedgeMaskedFFT tvB (90 - 30) 0 0 1 = 1 := by
    simp only [halfWedgeMaskedFFT]
    rw [if_neg]
    · exact hF1
    · exact hh1
  have hout1 : add_missing_wedge tvB (-30) 30 0 0 1 = 1 / 2 := by
    simp only [add_missing_wedge, ifftn, Fin.sum_univ_two, Fin.sum_univ_one,
      Fin.isValue, Fin.val_zero, Fin.val_one, hW0, hW1,
      itwiddle_zero_left, itwiddle_zero_right]
    norm_num [Complex.div_re, Complex.inv_re, Complex.normSq_apply]
  have hout2 : applyWedgeByHalfAngle tvB (90 - 30) 0 0 1 = -(1 / 2) := by
    simp only [applyWedgeByHalfAngle, ifftn, Fin.sum_univ_two, Fin.sum_univ_one,
      Fin.isValue, Fin.val_zero, Fin.val_one, hH0, hH1,
      itwiddle_zero_left, itwiddle_zero_right, itwiddle_two_one_one]
    norm_num [Complex.div_re, Complex.inv_re, Complex.normSq_apply]
  refine ⟨hout1, hout2, ?_⟩
  intro h
  have heval := congrFun (congrFun (congrFun h 0) 0) 1
  rw [hout1, hout2] at heval
  norm_num at heval

/-- Witness for C2 amended at the pair (-60, 30). -/
theorem C2_conventions_agree_witness :
    (-60 : ℚ) ≤ 0 ∧ (0 : ℚ) ≤ 30 ∧
      computeRotationAngleHalfDiff (-60) 30 =
        computeRotationAngleComplement (-60) 30 :=
  ⟨by norm_num, by norm_num,
    C2_conventions_agree.1 (-60) 30 (by norm_num) (by norm_num)⟩

end TomoUtils
